import Mathlib

/-!
Verification of the Marble SDK core (packages/core/src) against its
natural-language specification.  The TypeScript sources are shallowly
embedded: JavaScript numbers are modelled as rationals (ℚ) or integers,
JavaScript strings as lists of characters, and the JS runtime builtins
used by the code (Number(), Date parsing, Math.random, node:crypto HMAC)
appear as explicit environment parameters.
-/

namespace Marble

/-! ## Embedding of packages/core/src/retry.ts -/

/-- Model of retry.ts clamp (lines 4-6): Math.min(max, Math.max(min, n)). -/
def clamp (n lo hi : ℚ) : ℚ := min hi (max lo n)

/-- Model of retry.ts computeJitteredBackoff (lines 29-37).  The argument u
models the Math.random() draw, a value in the interval from 0 inclusive to
1 exclusive.  attempt is a natural number, so Lean's truncated subtraction
attempt - 1 coincides with the source's Math.max(0, attempt - 1). -/
def computeJitteredBackoff (u : ℚ) (attempt : ℕ) (baseDelayMs maxDelayMs : ℚ) : ℤ :=
  let e := baseDelayMs * 2 ^ (attempt - 1)
  let capped := clamp e baseDelayMs maxDelayMs
  ⌊u * (capped + 1)⌋

/-- JS runtime collaborators used by parseRetryAfter (retry.ts 13-19):
jsNumber s models Number(s), returning some q exactly when the result is a
finite number; dateDeltaMs s models new Date(s).getTime() - Date.now(),
returning some ms exactly when that difference is finite. -/
structure JsEnv where
  jsNumber : String → Option ℚ
  dateDeltaMs : String → Option ℚ

/-- Model of retry.ts parseRetryAfter (lines 13-19). -/
def parseRetryAfter (env : JsEnv) (h : String) : Option ℚ :=
  match env.jsNumber h with
  | some secs => some (max 0 (secs * 1000))
  | none =>
    match env.dateDeltaMs h with
    | some ms => some (max 0 ms)
    | none => none

/-- Model of the response headers as seen by the retry policy:
retryAfter is the result of headers.get("retry-after"). -/
structure HeadersM where
  retryAfter : Option String

/-- Model of an HTTP response as consumed by the retry policy. -/
structure ResponseM where
  status : ℤ
  headers : HeadersM

/-- Model of the RetryContext passed to shouldRetry: error records whether
ctx.error is present (and truthy); response is ctx.response. -/
structure RetryContextM where
  attempt : ℕ
  error : Bool
  response : Option ResponseM

/-- Model of a RetryDecision. -/
structure RetryDecisionM where
  delayMs : ℚ

/-- Model of defaultRetryPolicy.shouldRetry (retry.ts 55-81).  u is the
Math.random() draw used by the jittered-backoff branches.  The check
ra is truthy in the source (if (ra)) is: header present and non-empty. -/
def defaultShouldRetry (env : JsEnv) (u : ℚ) (ctx : RetryContextM) :
    Option RetryDecisionM :=
  if ctx.error then some ⟨(computeJitteredBackoff u ctx.attempt 250 8000 : ℚ)⟩
  else
    match ctx.response with
    | none => none
    | some res =>
      if res.status = 429 then
        match res.headers.retryAfter with
        | some ra =>
          if ra ≠ "" then
            match parseRetryAfter env ra with
            | some p => some ⟨p⟩
            | none => some ⟨(computeJitteredBackoff u ctx.attempt 250 8000 : ℚ)⟩
          else some ⟨(computeJitteredBackoff u ctx.attempt 250 8000 : ℚ)⟩
        | none => some ⟨(computeJitteredBackoff u ctx.attempt 250 8000 : ℚ)⟩
      else if 500 ≤ res.status ∧ res.status ≤ 599 then
        some ⟨(computeJitteredBackoff u ctx.attempt 250 8000 : ℚ)⟩
      else none

/-! ## Theorems for claims C3 and C4 -/

/-- C3 counterexample: with fractional base delay b = 1/2 = cap c, attempt
a = 1 and random draw u = 3/4 (all within the claim's hypotheses
a ≥ 1, b ≥ 0, c ≥ b, u in the unit interval), computeJitteredBackoff
returns 1, which exceeds the claimed bound min(max(b, b·2^(a-1)), c) = 1/2. -/
theorem computeJitteredBackoff_bound_counterexample :
    1 ≤ (1 : ℕ) ∧ (0 : ℚ) ≤ (1 : ℚ)/2 ∧ (1 : ℚ)/2 ≤ (1 : ℚ)/2 ∧
    (0 : ℚ) ≤ (3 : ℚ)/4 ∧ (3 : ℚ)/4 < 1 ∧
    ¬ ((computeJitteredBackoff ((3 : ℚ)/4) 1 ((1 : ℚ)/2) ((1 : ℚ)/2) : ℚ) ≤
        min (max ((1 : ℚ)/2) (((1 : ℚ)/2) * 2 ^ ((1 : ℕ) - 1))) ((1 : ℚ)/2)) := by
  refine ⟨le_refl 1, by norm_num, le_refl _, by norm_num, by norm_num, ?_⟩
  have hdef : computeJitteredBackoff ((3 : ℚ)/4) 1 ((1 : ℚ)/2) ((1 : ℚ)/2) =
      ⌊(3 : ℚ)/4 * (clamp (((1 : ℚ)/2) * 2 ^ ((1 : ℕ) - 1)) ((1 : ℚ)/2) ((1 : ℚ)/2) + 1)⌋ :=
    rfl
  have h : computeJitteredBackoff ((3 : ℚ)/4) 1 ((1 : ℚ)/2) ((1 : ℚ)/2) = 1 := by
    rw [hdef]
    unfold clamp
    rw [show ((3 : ℚ)/4 * (min ((1 : ℚ)/2) (max ((1 : ℚ)/2) (((1 : ℚ)/2) * 2 ^ ((1 : ℕ) - 1))) + 1)) = 9/8 by norm_num]
    rw [Int.floor_eq_iff]
    norm_num
  rw [h]
  norm_num

/-- C3 (amended): for every attempt a ≥ 1, integer base delay b ≥ 0,
integer cap c ≥ b and every random draw u with 0 ≤ u < 1, the backoff
computeJitteredBackoff(a, b, c) is an integer d with
0 ≤ d ≤ min(max(b, b·2^(a-1)), c). -/
theorem computeJitteredBackoff_bounds_int (a b c : ℕ) (u : ℚ)
    (ha : 1 ≤ a) (hbc : b ≤ c) (h0 : 0 ≤ u) (h1 : u < 1) :
    0 ≤ computeJitteredBackoff u a b c ∧
    computeJitteredBackoff u a b c ≤ min (max (b : ℤ) (b * 2 ^ (a - 1))) (c : ℤ) := by
  have hcap : ((min (max (b : ℤ) (b * 2 ^ (a - 1))) (c : ℤ) : ℤ) : ℚ)
      = clamp ((b : ℚ) * 2 ^ (a - 1)) b c := by
    unfold clamp
    push_cast
    rw [min_comm]
  set C : ℤ := min (max (b : ℤ) (b * 2 ^ (a - 1))) (c : ℤ) with hC
  have hC0 : 0 ≤ C := by
    apply le_min
    · exact le_max_of_le_left (Int.natCast_nonneg b)
    · exact Int.natCast_nonneg c
  have hcap0 : 0 ≤ clamp ((b : ℚ) * 2 ^ (a - 1)) b c := by
    rw [← hcap]
    exact_mod_cast hC0
  have hdef : computeJitteredBackoff u a b c =
      ⌊u * (clamp ((b : ℚ) * 2 ^ (a - 1)) b c + 1)⌋ := rfl
  rw [hdef]
  constructor
  · apply Int.le_floor.mpr
    push_cast
    have : (0 : ℚ) ≤ clamp ((b : ℚ) * 2 ^ (a - 1)) b c + 1 := by linarith
    exact mul_nonneg h0 this
  · have hpos : (0 : ℚ) < clamp ((b : ℚ) * 2 ^ (a - 1)) b c + 1 := by linarith
    have hlt : u * (clamp ((b : ℚ) * 2 ^ (a - 1)) b c + 1) < (C : ℚ) + 1 := by
      calc u * (clamp ((b : ℚ) * 2 ^ (a - 1)) b c + 1)
          < 1 * (clamp ((b : ℚ) * 2 ^ (a - 1)) b c + 1) :=
            mul_lt_mul_of_pos_right h1 hpos
        _ = clamp ((b : ℚ) * 2 ^ (a - 1)) b c + 1 := one_mul _
        _ = (C : ℚ) + 1 := by rw [hcap]
    have hfl : ⌊u * (clamp ((b : ℚ) * 2 ^ (a - 1)) b c + 1)⌋ < C + 1 := by
      apply Int.floor_lt.mpr
      push_cast
      exact hlt
    omega

/-- C3 (amended) witness: the bound instantiated at a = 1, b = 250,
c = 8000, u = 0. -/
theorem computeJitteredBackoff_bounds_int_witness :
    0 ≤ computeJitteredBackoff 0 1 250 8000 ∧
    computeJitteredBackoff 0 1 250 8000 ≤
      min (max (250 : ℤ) (250 * 2 ^ ((1 : ℕ) - 1))) (8000 : ℤ) :=
  computeJitteredBackoff_bounds_int 1 250 8000 0 (by decide) (by decide)
    (by norm_num) (by norm_num)

/-- C4: for every retry context with no error, a response of status 429
and a retry-after header of "2", the default policy returns a decision of
exactly 2000 ms, for every random draw u (no jitter is applied).  The only
environment fact used is that JS Number("2") evaluates to the finite
number 2. -/
theorem defaultShouldRetry_429_retry_after_two (env : JsEnv) (u : ℚ) (a : ℕ)
    (hnum : env.jsNumber "2" = some 2) :
    defaultShouldRetry env u ⟨a, false, some ⟨429, ⟨some "2"⟩⟩⟩ = some ⟨2000⟩ := by
  unfold defaultShouldRetry parseRetryAfter
  simp [hnum]
  norm_num

/-- C4 witness: the theorem applied to a concrete environment whose
Number() model maps "2" to 2, with u = 0 and attempt 1. -/
theorem defaultShouldRetry_429_retry_after_two_witness :
    defaultShouldRetry ⟨fun s => if s = "2" then some 2 else none, fun _ => none⟩
      0 ⟨1, false, some ⟨429, ⟨some "2"⟩⟩⟩ = some ⟨2000⟩ :=
  defaultShouldRetry_429_retry_after_two _ 0 1 (by simp)

/-! ## Embedding of MarbleClient.getJson (client.ts 457-519) -/

/-- Outcome of one transport invocation (one call of this.fetcher):
throwErr: the fetch promise rejected; respNotOk: a response with ok false;
respOkInvalid: an ok response whose res.json() or schema.parse throws;
respOkValid: an ok response with a body the schema accepts. -/
inductive FetchOutcome where
  | throwErr : FetchOutcome
  | respNotOk : ResponseM → FetchOutcome
  | respOkInvalid : FetchOutcome
  | respOkValid : FetchOutcome

/-- Terminal result of getJson: success (schema.parse returned),
transportError (the original fetch rejection was re-thrown),
httpFailure (a MarbleHttpError escaped), shapeError (the
res.json()/schema.parse exception escaped). -/
inductive GetJsonResult where
  | success : GetJsonResult
  | transportError : GetJsonResult
  | httpFailure : ℤ → GetJsonResult
  | shapeError : GetJsonResult
deriving DecidableEq

/-- A retry policy as consumed by getJson: maxRetries plus shouldRetry. -/
structure PolicyM where
  maxRetries : ℕ
  shouldRetry : RetryContextM → Option RetryDecisionM

/-- One iteration of getJson's while loop, recursing with fuel.  fetchAt n
is the outcome of the transport invocation made on attempt n.  The second
component counts transport invocations.  Key source detail: the
MarbleHttpError thrown at client.ts 494 is raised inside the try block, so
it is caught by the catch at 505, which consults shouldRetry with the
context having error set (and no response); likewise a res.json() or
schema.parse exception reaches that catch.  Fuel exhaustion (first
equation) is unreachable whenever fuel exceeds maxRetries + 1 - attempt. -/
def getJsonGo (policy : PolicyM) (fetchAt : ℕ → FetchOutcome) :
    ℕ → ℕ → GetJsonResult × ℕ
  | _, 0 => (.transportError, 0)
  | attempt, fuel + 1 =>
    match fetchAt attempt with
    | .throwErr =>
      if (policy.shouldRetry ⟨attempt, true, none⟩).isSome ∧ attempt ≤ policy.maxRetries then
        let r := getJsonGo policy fetchAt (attempt + 1) fuel
        (r.1, r.2 + 1)
      else (.transportError, 1)
    | .respNotOk res =>
      if (policy.shouldRetry ⟨attempt, false, some res⟩).isSome ∧ attempt ≤ policy.maxRetries then
        let r := getJsonGo policy fetchAt (attempt + 1) fuel
        (r.1, r.2 + 1)
      else
        if (policy.shouldRetry ⟨attempt, true, none⟩).isSome ∧ attempt ≤ policy.maxRetries then
          let r := getJsonGo policy fetchAt (attempt + 1) fuel
          (r.1, r.2 + 1)
        else (.httpFailure res.status, 1)
    | .respOkInvalid =>
      if (policy.shouldRetry ⟨attempt, true, none⟩).isSome ∧ attempt ≤ policy.maxRetries then
        let r := getJsonGo policy fetchAt (attempt + 1) fuel
        (r.1, r.2 + 1)
      else (.shapeError, 1)
    | .respOkValid => (.success, 1)

/-- A full getJson run: attempt starts at 1; the fuel maxRetries + 1 covers
every reachable attempt, since the loop re-enters only when
attempt ≤ maxRetries. -/
def getJsonRun (policy : PolicyM) (fetchAt : ℕ → FetchOutcome) : GetJsonResult × ℕ :=
  getJsonGo policy fetchAt 1 (policy.maxRetries + 1)

/-- The default retry policy (retry.ts 51-82) as a PolicyM.  The source
draws Math.random() afresh inside each shouldRetry call; the single draw u
here is inconsequential because no consumer in these claims inspects the
delay value. -/
def defaultRetryPolicy (env : JsEnv) (u : ℚ) : PolicyM :=
  { maxRetries := 3, shouldRetry := defaultShouldRetry env u }

/-! ## Theorems for claims C1 and C2 -/

/-- C1 (falsified by the code): under the default retry policy, a GET whose
transport yields HTTP 404 on every attempt performs four transport
invocations, not one: the MarbleHttpError thrown for the 404 is caught by
getJson's own catch block and re-classified as a transport error, which the
default policy retries until maxRetries (3) is exceeded.  The terminal
result is still the HttpFailure. -/
theorem getJson_default_404_retries (env : JsEnv) (u : ℚ) :
    getJsonRun (defaultRetryPolicy env u) (fun _ => .respNotOk ⟨404, ⟨none⟩⟩) =
      (.httpFailure 404, 4) := by
  rfl

/-- C2 (falsified by the code): under the default retry policy, a GET whose
transport yields an ok response with a body failing shape validation on
every attempt performs four transport invocations: the schema.parse
exception is caught by getJson's catch block, which consults the default
policy with the error context, and the policy retries every error. -/
theorem getJson_default_shape_error_retries (env : JsEnv) (u : ℚ) :
    getJsonRun (defaultRetryPolicy env u) (fun _ => .respOkInvalid) =
      (.shapeError, 4) := by
  rfl

/-! ## Embedding of the pagination engine (client.ts 330-455) -/

/-- Model of the normalized Pagination record (types: limit, currentPage,
nextPage, previousPage, totalItems, totalPages). -/
structure PaginationM where
  limit : ℤ
  currentPage : ℤ
  nextPage : Option ℤ
  previousPage : Option ℤ
  totalItems : ℤ
  totalPages : ℤ
deriving DecidableEq

/-- How a page iteration ended: completed covers the two break statements,
abortedEarly is the Aborted error thrown by ensureNotAborted. -/
inductive IterOutcome where
  | completed : IterOutcome
  | abortedEarly : IterOutcome
deriving DecidableEq

/-- Model of the while loop of MarbleClient.iteratePostPages (client.ts
340-357); iterateTagPages, iterateCategoryPages and iterateAuthorPages
share this loop verbatim.  aborted models an already-triggered
AbortSignal (opts.signal), checked by ensureNotAborted (client.ts 453-455)
at the top of every iteration; pageAt p is the pagination descriptor of
the page the (successful) listPosts call returns for page number p.  The
result lists the yielded pages' pagination descriptors, counts the
transport invocations, and reports how the loop ended; fuel bounds the
unbounded while loop and the theorems hold for every sufficient fuel. -/
def iterPages (aborted : Bool) (pageAt : ℤ → PaginationM) (maxPages : Option ℕ) :
    ℤ → ℕ → ℕ → List PaginationM × ℕ × IterOutcome
  | _, _, 0 => ([], 0, .completed)
  | page, pagesRead, fuel + 1 =>
    if aborted then ([], 0, .abortedEarly)
    else
      let pg := pageAt page
      match pg.nextPage with
      | none => ([pg], 1, .completed)
      | some next =>
        match maxPages with
        | some m =>
          if m ≤ pagesRead + 1 then ([pg], 1, .completed)
          else
            let r := iterPages aborted pageAt maxPages next (pagesRead + 1) fuel
            (pg :: r.1, r.2.1 + 1, r.2.2)
        | none =>
          let r := iterPages aborted pageAt maxPages next (pagesRead + 1) fuel
          (pg :: r.1, r.2.1 + 1, r.2.2)

/-! ## Theorems for claims C5 and C6 -/

/-- C5: from any iteration state (any cursor, any pages-read count, any
maxPages option, any remaining fuel), when the fetched page's
pagination.nextPage is null the iterator yields exactly that page and
terminates: precisely one further transport invocation occurs, regardless
of the page's totalPages and of maxPages. -/
theorem iterPages_stops_after_null_next (pageAt : ℤ → PaginationM)
    (maxPages : Option ℕ) (page : ℤ) (pagesRead fuel : ℕ)
    (h : (pageAt page).nextPage = none) :
    iterPages false pageAt maxPages page pagesRead (fuel + 1) =
      ([pageAt page], 1, .completed) := by
  unfold iterPages
  simp [h]

/-- C5 witness: a transport whose every page reports nextPage = null,
totalPages = 100 and maxPages = some 50; one fetch, then termination. -/
theorem iterPages_stops_after_null_next_witness :
    iterPages false (fun _ => ⟨20, 1, none, none, 2000, 100⟩) (some 50) 1 0 (7 + 1) =
      ([⟨20, 1, none, none, 2000, 100⟩], 1, .completed) :=
  iterPages_stops_after_null_next (fun _ => ⟨20, 1, none, none, 2000, 100⟩)
    (some 50) 1 0 7 rfl

/-- C6: an iteration whose cancellation token is already triggered performs
zero transport invocations, yields nothing, and fails with the Aborted
error, from any starting state. -/
theorem iterPages_aborted_no_fetch (pageAt : ℤ → PaginationM)
    (maxPages : Option ℕ) (page : ℤ) (pagesRead fuel : ℕ) (hf : 0 < fuel) :
    iterPages true pageAt maxPages page pagesRead fuel = ([], 0, .abortedEarly) := by
  match fuel, hf with
  | f + 1, _ =>
    unfold iterPages
    simp

/-- C6 witness: an already-aborted iteration over a transport that would
report more pages forever performs zero invocations. -/
theorem iterPages_aborted_no_fetch_witness :
    iterPages true (fun p => ⟨20, p, some (p + 1), none, 1000, 50⟩) none 1 0 9 =
      ([], 0, .abortedEarly) :=
  iterPages_aborted_no_fetch (fun p => ⟨20, p, some (p + 1), none, 1000, 50⟩)
    none 1 0 9 (by decide)

/-! ## Embedding of list-response normalization (client.ts 68-135, 198-233,
242-277, 286-323) -/

/-- Model of the optional meta wrapper of a list response:
meta.pagination may itself be absent. -/
structure RawMeta where
  pagination : Option PaginationM

/-- Model of a parsed list response (schemas.ts ApiListPostsResponse and
its tag/category/author counterparts): items is the resource-specific
array key (posts, tags, categories or authors), data the generic fallback,
and pagination may appear top-level or nested under meta. -/
structure RawListResponse (α : Type) where
  items : Option (List α)
  data : Option (List α)
  pagination : Option PaginationM
  meta : Option RawMeta

/-- Model of the collection extraction raw.posts ?? raw.data ?? []
(client.ts 77; identical in listTags 207, listCategories 251,
listAuthors 295). -/
def extractItems {α : Type} (raw : RawListResponse α) : List α :=
  match raw.items with
  | some xs => xs
  | none =>
    match raw.data with
    | some xs => xs
    | none => []

/-- Model of the pagination normalization of listPosts (client.ts 115-132;
identical in listTags 214-231, listCategories 258-275, listAuthors
304-321): p1 = raw.pagination ?? raw.meta?.pagination; when present its
six fields are copied, otherwise a default descriptor is synthesized from
the item count and the requested page.  The entity mapping at client.ts
79-113 is a per-element map, so the normalized item count used for
limit/totalItems equals (extractItems raw).length. -/
def listPagination {α : Type} (raw : RawListResponse α) (page : Option ℤ) :
    PaginationM :=
  let itemCount : ℤ := (extractItems raw).length
  let p1 : Option PaginationM :=
    match raw.pagination with
    | some p => some p
    | none =>
      match raw.meta with
      | some m => m.pagination
      | none => none
  match p1 with
  | some p => ⟨p.limit, p.currentPage, p.nextPage, p.previousPage, p.totalItems, p.totalPages⟩
  | none => ⟨itemCount, page.getD 1, none, none, itemCount, 1⟩

/-! ## Theorem for claim C9 -/

/-- C9: for every list response carrying neither a top-level pagination
object nor meta.pagination, the returned descriptor is the synthesized
default: limit and totalItems are the observed item count, currentPage is
the requested page (1 when none), both cursors are null and totalPages
is 1. -/
theorem listPagination_synthesized_default {α : Type} (raw : RawListResponse α)
    (page : Option ℤ) (h1 : raw.pagination = none)
    (h2 : raw.meta.bind RawMeta.pagination = none) :
    listPagination raw page =
      ⟨((extractItems raw).length : ℤ), page.getD 1, none, none,
        ((extractItems raw).length : ℤ), 1⟩ := by
  unfold listPagination
  match hm : raw.meta with
  | none => simp [h1, hm]
  | some m =>
    have : m.pagination = none := by
      rw [hm] at h2
      simpa using h2
    simp [h1, hm, this]

/-- C9 witness: a response with two items under the resource key, a meta
wrapper without pagination, and requested page 7. -/
theorem listPagination_synthesized_default_witness :
    listPagination (⟨some [0, 1], none, none, some ⟨none⟩⟩ : RawListResponse ℕ)
        (some 7) =
      ⟨2, 7, none, none, 2, 1⟩ :=
  listPagination_synthesized_default
    (⟨some [0, 1], none, none, some ⟨none⟩⟩ : RawListResponse ℕ) (some 7) rfl rfl

/-! ## Embedding of packages/core/src/webhook.ts -/

/-- JS strings are modelled as lists of characters. -/
abbrev Str := List Char

/-- The whitespace code points stripped by JS String.prototype.trim. -/
def isJsWs (c : Char) : Bool :=
  decide (c.toNat ∈ [9, 10, 11, 12, 13, 32, 160, 0x1680, 0x2000, 0x2001, 0x2002,
    0x2003, 0x2004, 0x2005, 0x2006, 0x2007, 0x2008, 0x2009, 0x200A, 0x2028,
    0x2029, 0x202F, 0x205F, 0x3000, 0xFEFF])

/-- Model of String.prototype.trim. -/
def jsTrim (s : Str) : Str :=
  ((s.dropWhile isJsWs).reverse.dropWhile isJsWs).reverse

/-- Character-by-character comparison of a candidate pattern (first
argument) against the front of a string (second argument). -/
def startsWithAux : Str → Str → Bool
  | [], _ => true
  | _ :: _, [] => false
  | d :: ds, c :: cs => c == d && startsWithAux ds cs

/-- Model of String.prototype.startsWith. -/
def jsStartsWith (s p : Str) : Bool := startsWithAux p s

/-- Model of String.prototype.split applied to the separator "," as in
webhook.ts 27 (an empty string yields one empty field, matching JS). -/
def splitComma : Str → List Str
  | [] => [[]]
  | c :: cs =>
    if c = ',' then [] :: splitComma cs
    else
      match splitComma cs with
      | [] => [[c]]
      | h :: rest => (c :: h) :: rest

/-- Value of a hexadecimal digit character, by code point
(0-9, a-f, A-F). -/
def hexDigitVal (c : Char) : Option ℕ :=
  if 48 ≤ c.toNat ∧ c.toNat ≤ 57 then some (c.toNat - 48)
  else if 97 ≤ c.toNat ∧ c.toNat ≤ 102 then some (c.toNat - 97 + 10)
  else if 65 ≤ c.toNat ∧ c.toNat ≤ 70 then some (c.toNat - 65 + 10)
  else none

/-- Characters Buffer.from(s, "hex") accepts. -/
def isHexChar (c : Char) : Bool := (hexDigitVal c).isSome

/-- Model of Buffer.from(s, "hex") (webhook.ts 19 and 78): consume pairs
of hex digits into bytes, truncating at the first invalid pair or at a
dangling final character. -/
def hexDecode : Str → List ℕ
  | c1 :: c2 :: rest =>
    match hexDigitVal c1, hexDigitVal c2 with
    | some hi, some lo => (16 * hi + lo) :: hexDecode rest
    | _, _ => []
  | _ => []

/-- Result of parseProvidedSignature: ts is the embedded t= value (absent
when the header holds no comma or no t= part), sigHex the v1= value or
the bare header. -/
structure ParsedSig where
  ts : Option Str
  sigHex : Str
deriving DecidableEq

/-- Model of parseProvidedSignature (webhook.ts 22-37): on a header with a
comma, split on commas, trim each part, and scan the parts with the two
independent startsWith checks of the source loop (a later match
overwrites an earlier one; the initial sigHex is the empty string). -/
def parseProvidedSignature (sigHeader : Str) : ParsedSig :=
  if ',' ∈ sigHeader then
    let parts := (splitComma sigHeader).map jsTrim
    let st := parts.foldl
      (fun (st : Option Str × Str) p =>
        let st1 := if jsStartsWith p ['t', '='] then (some (p.drop 2), st.2) else st
        if jsStartsWith p ['v', '1', '='] then (st1.1, p.drop 3) else st1)
      (none, [])
    ⟨st.1, st.2⟩
  else ⟨none, sigHeader⟩

/-- Model of computeSignature (webhook.ts 16-20): hmacHex models the
node:crypto HMAC-SHA256 hex digest of the signed payload under the secret;
Buffer.from(-, "hex") is hexDecode, so the result is the digest's bytes. -/
def computeSignature (hmacHex : Str → Str → Str) (secret signedPayload : Str) :
    List ℕ :=
  hexDecode (hmacHex secret signedPayload)

/-- Webhook headers as read by verifyMarbleSignature: the values of
x-marble-signature and x-marble-timestamp. -/
structure WHeaders where
  signature : Option Str
  timestamp : Option Str

/-- Model of VerifyOptions (webhook.ts 39-42). -/
structure VerifyOptionsM where
  includeTimestampInPayload : Option Bool
  toleranceSeconds : Option ℤ

/-- The four Error values verifyMarbleSignature can throw. -/
inductive VerifyError where
  | missingSignature : VerifyError
  | missingTimestamp : VerifyError
  | timestampOutOfRange : VerifyError
  | invalidSignature : VerifyError
deriving DecidableEq

/-- Model of verifyMarbleSignature (webhook.ts 44-86).  Environment:
hmacHex as in computeSignature; instantOf t models
(Number.isFinite(Number(t)) ? new Date(Number(t)*1000) : new Date(t))
.getTime() in milliseconds, none when that value is NaN; nowMs models
Date.now().  The error results model the thrown Error values and .ok ()
models returning true.  Truthiness details mirrored from the source: a
missing or empty signature header throws; an empty x-marble-timestamp
header still takes precedence (?? is nullish) but then counts as absent
for Boolean(timestampHeader) and for the t check. -/
def verifyMarbleSignature (hmacHex : Str → Str → Str)
    (instantOf : Str → Option ℤ) (nowMs : ℤ) (rawBody : Str)
    (headers : WHeaders) (secret : Str) (opts : VerifyOptionsM) :
    Except VerifyError Unit :=
  match headers.signature with
  | none => .error .missingSignature
  | some sigHeader =>
    if sigHeader = [] then .error .missingSignature
    else
      let parsed := parseProvidedSignature sigHeader
      let timestampHeader : Option Str :=
        match headers.timestamp with
        | some t => some t
        | none => parsed.ts
      let includeTs : Bool :=
        match opts.includeTimestampInPayload with
        | some b => b
        | none =>
          match timestampHeader with
          | some t => !t.isEmpty
          | none => false
      let tolerance : ℤ := max 0 (opts.toleranceSeconds.getD 300)
      let payloadOrErr : Except VerifyError Str :=
        if includeTs then
          let t := timestampHeader.getD []
          if t = [] then .error .missingTimestamp
          else if 0 < tolerance then
            match instantOf t with
            | none => .error .timestampOutOfRange
            | some tsMs =>
              if tolerance * 1000 < |nowMs - tsMs| then .error .timestampOutOfRange
              else .ok (t ++ '.' :: rawBody)
          else .ok (t ++ '.' :: rawBody)
        else .ok rawBody
      match payloadOrErr with
      | .error e => .error e
      | .ok signedPayload =>
        let expected := computeSignature hmacHex secret signedPayload
        let provided := hexDecode parsed.sigHex
        if expected.length ≠ provided.length ∨ expected ≠ provided then
          .error .invalidSignature
        else .ok ()

/-! ## Helper lemmas about the JS string primitives -/

lemma splitComma_of_not_mem (xs : Str) (h : ',' ∉ xs) : splitComma xs = [xs] := by
  induction xs with
  | nil => rfl
  | cons c cs ih =>
    have hc : ¬ c = ',' := fun hcc => h (hcc ▸ List.mem_cons_self c cs)
    have hcs : ',' ∉ cs := fun hm => h (List.mem_cons_of_mem c hm)
    unfold splitComma
    rw [if_neg hc, ih hcs]

lemma splitComma_append (xs ys : Str) (h : ',' ∉ xs) :
    splitComma (xs ++ ',' :: ys) = xs :: splitComma ys := by
  induction xs with
  | nil =>
    simp only [List.nil_append]
    conv_lhs => rw [splitComma]
    rw [if_pos rfl]
  | cons c cs ih =>
    have hc : ¬ c = ',' := fun hcc => h (hcc ▸ List.mem_cons_self c cs)
    have hcs : ',' ∉ cs := fun hm => h (List.mem_cons_of_mem c hm)
    simp only [List.cons_append]
    conv_lhs => rw [splitComma]
    rw [if_neg hc, ih hcs]

lemma jsTrim_eq_of_no_ws (s : Str) (h : ∀ c ∈ s, isJsWs c = false) :
    jsTrim s = s := by
  unfold jsTrim
  have h1 : s.dropWhile isJsWs = s := by
    cases s with
    | nil => rfl
    | cons a l =>
      rw [List.dropWhile_cons]
      simp [h a (List.mem_cons_self a l)]
  rw [h1]
  have h2 : s.reverse.dropWhile isJsWs = s.reverse := by
    cases hr : s.reverse with
    | nil => rfl
    | cons a l =>
      have ha : a ∈ s := by
        have : a ∈ s.reverse := hr ▸ List.mem_cons_self a l
        simpa using this
      rw [List.dropWhile_cons]
      simp [h a ha]
  rw [h2, List.reverse_reverse]

/-- Character class used in the round-trip claims: a decimal digit
(as in a canonical epoch-seconds timestamp string). -/
def isDigitChar (c : Char) : Bool := decide (48 ≤ c.toNat ∧ c.toNat ≤ 57)

lemma isDigitChar_props (c : Char) (h : isDigitChar c = true) :
    ¬ c = ',' ∧ isJsWs c = false := by
  have hc : 48 ≤ c.toNat ∧ c.toNat ≤ 57 := by simpa [isDigitChar] using h
  constructor
  · intro hcc
    subst hcc
    revert hc
    decide
  · unfold isJsWs
    simp only [decide_eq_false_iff_not, List.mem_cons, List.not_mem_nil, or_false]
    omega

lemma isHexChar_props (c : Char) (h : isHexChar c = true) :
    ¬ c = ',' ∧ isJsWs c = false := by
  have hc : (48 ≤ c.toNat ∧ c.toNat ≤ 57) ∨ (97 ≤ c.toNat ∧ c.toNat ≤ 102) ∨
      (65 ≤ c.toNat ∧ c.toNat ≤ 70) := by
    unfold isHexChar hexDigitVal at h
    split_ifs at h with h1 h2 h3
    · exact Or.inl h1
    · exact Or.inr (Or.inl h2)
    · exact Or.inr (Or.inr h3)
    · simp at h
  constructor
  · intro hcc
    subst hcc
    revert hc
    decide
  · unfold isJsWs
    simp only [decide_eq_false_iff_not, List.mem_cons, List.not_mem_nil, or_false]
    omega

lemma not_mem_comma_of_digits (t : Str) (ht : ∀ c ∈ t, isDigitChar c = true) :
    (',' : Char) ∉ t :=
  fun hm => (isDigitChar_props ',' (ht ',' hm)).1 rfl

lemma no_ws_of_digits (t : Str) (ht : ∀ c ∈ t, isDigitChar c = true) :
    ∀ c ∈ t, isJsWs c = false :=
  fun c hc => (isDigitChar_props c (ht c hc)).2

lemma not_mem_comma_of_hex (d : Str) (hd : ∀ c ∈ d, isHexChar c = true) :
    (',' : Char) ∉ d :=
  fun hm => (isHexChar_props ',' (hd ',' hm)).1 rfl

lemma no_ws_of_hex (d : Str) (hd : ∀ c ∈ d, isHexChar c = true) :
    ∀ c ∈ d, isJsWs c = false :=
  fun c hc => (isHexChar_props c (hd c hc)).2

/-- Parsing the composite header t=(t),v1=(d) recovers ts = t and
sigHex = d when t holds only decimal digits and d only hex digits. -/
lemma parseProvidedSignature_composite (t d : Str)
    (ht : ∀ c ∈ t, isDigitChar c = true)
    (hd : ∀ c ∈ d, isHexChar c = true) :
    parseProvidedSignature (('t' :: '=' :: t) ++ ',' :: 'v' :: '1' :: '=' :: d) =
      ⟨some t, d⟩ := by
  have htc := not_mem_comma_of_digits t ht
  have hdc := not_mem_comma_of_hex d hd
  have hxs : (',' : Char) ∉ ('t' :: '=' :: t) := by
    intro hm
    rcases List.mem_cons.mp hm with h | hm2
    · exact absurd h (by decide)
    rcases List.mem_cons.mp hm2 with h | hm3
    · exact absurd h (by decide)
    · exact htc hm3
  have hv1 : (',' : Char) ∉ ('v' :: '1' :: '=' :: d) := by
    intro hm
    rcases List.mem_cons.mp hm with h | hm2
    · exact absurd h (by decide)
    rcases List.mem_cons.mp hm2 with h | hm3
    · exact absurd h (by decide)
    rcases List.mem_cons.mp hm3 with h | hm4
    · exact absurd h (by decide)
    · exact hdc hm4
  have hmem : (',' : Char) ∈ ('t' :: '=' :: t) ++ ',' :: 'v' :: '1' :: '=' :: d := by
    simp
  have hsplit : splitComma (('t' :: '=' :: t) ++ ',' :: 'v' :: '1' :: '=' :: d) =
      ('t' :: '=' :: t) :: splitComma ('v' :: '1' :: '=' :: d) :=
    splitComma_append _ _ hxs
  have hsplit2 : splitComma ('v' :: '1' :: '=' :: d) = [('v' :: '1' :: '=' :: d)] :=
    splitComma_of_not_mem _ hv1
  have hw1 : ∀ c ∈ ('t' :: '=' :: t), isJsWs c = false := by
    intro c hc
    rcases List.mem_cons.mp hc with rfl | hc2
    · decide
    rcases List.mem_cons.mp hc2 with rfl | hc3
    · decide
    · exact no_ws_of_digits t ht c hc3
  have hw2 : ∀ c ∈ ('v' :: '1' :: '=' :: d), isJsWs c = false := by
    intro c hc
    rcases List.mem_cons.mp hc with rfl | hc2
    · decide
    rcases List.mem_cons.mp hc2 with rfl | hc3
    · decide
    rcases List.mem_cons.mp hc3 with rfl | hc4
    · decide
    · exact no_ws_of_hex d hd c hc4
  have ht1 := jsTrim_eq_of_no_ws _ hw1
  have ht2 := jsTrim_eq_of_no_ws _ hw2
  simp only [parseProvidedSignature, if_pos hmem, hsplit, hsplit2, List.map,
    ht1, ht2]
  rfl

/-- Evaluation of verifyMarbleSignature on a composite header
t=(t),v1=(d) with no x-marble-timestamp header and default options:
the timestamp window (default 300 s) is checked first, then the byte
comparison of the two decoded digests. -/
lemma verify_composite_eval (hmacHex : Str → Str → Str)
    (instantOf : Str → Option ℤ) (nowMs tsMs : ℤ) (body secret t d : Str)
    (htne : t ≠ []) (ht : ∀ c ∈ t, isDigitChar c = true)
    (hd : ∀ c ∈ d, isHexChar c = true)
    (hinst : instantOf t = some tsMs) :
    verifyMarbleSignature hmacHex instantOf nowMs body
        ⟨some (('t' :: '=' :: t) ++ ',' :: 'v' :: '1' :: '=' :: d), none⟩ secret
        ⟨none, none⟩ =
      if 300 * 1000 < |nowMs - tsMs| then .error .timestampOutOfRange
      else if hexDecode (hmacHex secret (t ++ '.' :: body)) = hexDecode d then
        .ok ()
      else .error .invalidSignature := by
  have hparse := parseProvidedSignature_composite t d ht hd
  simp only [List.cons_append] at hparse
  have hempty : t.isEmpty = false := by
    cases t with
    | nil => exact absurd rfl htne
    | cons a l => rfl
  by_cases hskew : (300000 : ℤ) < |nowMs - tsMs|
  · simp [verifyMarbleSignature, hparse, htne, hempty, hinst, hskew,
      computeSignature]
  · by_cases hsig : hexDecode (hmacHex secret (t ++ '.' :: body)) = hexDecode d
    · simp [verifyMarbleSignature, hparse, htne, hempty, hinst, hskew, hsig,
        computeSignature]
    · simp [verifyMarbleSignature, hparse, htne, hempty, hinst, hskew, hsig,
        computeSignature]

/-- Evaluation of verifyMarbleSignature on a bare hex signature header with
an explicit x-marble-timestamp header and toleranceSeconds = 0: the
timestamp is prefixed into the signed payload but never validated, and
the result is decided solely by the digest comparison. -/
lemma verify_bare_tol0_eval (hmacHex : Str → Str → Str)
    (instantOf : Str → Option ℤ) (nowMs : ℤ) (body secret t d : Str)
    (htne : t ≠ []) (hdne : d ≠ []) (hd : ∀ c ∈ d, isHexChar c = true) :
    verifyMarbleSignature hmacHex instantOf nowMs body ⟨some d, some t⟩ secret
        ⟨none, some 0⟩ =
      if hexDecode (hmacHex secret (t ++ '.' :: body)) = hexDecode d then
        .ok ()
      else .error .invalidSignature := by
  have hdc := not_mem_comma_of_hex d hd
  have hparse : parseProvidedSignature d = ⟨none, d⟩ := by
    unfold parseProvidedSignature
    rw [if_neg hdc]
  have hempty : t.isEmpty = false := by
    cases t with
    | nil => exact absurd rfl htne
    | cons a l => rfl
  by_cases hsig : hexDecode (hmacHex secret (t ++ '.' :: body)) = hexDecode d
  · simp [verifyMarbleSignature, hparse, htne, hdne, hempty, hsig,
      computeSignature]
  · simp [verifyMarbleSignature, hparse, htne, hdne, hempty, hsig,
      computeSignature]

/-! ## Theorems for claims C7, C8 and C10 -/

/-- C7: for every body, secret and digit timestamp t within the default
tolerance, verifying the header t=(t),v1=(correct hex HMAC of
"(t).(body)" under the secret) succeeds; and for every hex signature whose
decoded byte sequence differs from the correct digest's, verification
fails with the invalid-signature error. -/
theorem verify_roundtrip_and_flip (hmacHex : Str → Str → Str)
    (instantOf : Str → Option ℤ) (nowMs tsMs : ℤ) (body secret t : Str)
    (htne : t ≠ []) (ht : ∀ c ∈ t, isDigitChar c = true)
    (hdig : ∀ c ∈ hmacHex secret (t ++ '.' :: body), isHexChar c = true)
    (hinst : instantOf t = some tsMs)
    (hskew : |nowMs - tsMs| ≤ 300 * 1000) :
    verifyMarbleSignature hmacHex instantOf nowMs body
        ⟨some (('t' :: '=' :: t) ++ ',' :: 'v' :: '1' :: '=' ::
          hmacHex secret (t ++ '.' :: body)), none⟩ secret ⟨none, none⟩ =
      .ok () ∧
    ∀ d : Str, (∀ c ∈ d, isHexChar c = true) →
      hexDecode d ≠ hexDecode (hmacHex secret (t ++ '.' :: body)) →
      verifyMarbleSignature hmacHex instantOf nowMs body
          ⟨some (('t' :: '=' :: t) ++ ',' :: 'v' :: '1' :: '=' :: d), none⟩
          secret ⟨none, none⟩ =
        .error .invalidSignature := by
  constructor
  · rw [verify_composite_eval hmacHex instantOf nowMs tsMs body secret t _
      htne ht hdig hinst]
    rw [if_neg (not_lt.mpr hskew), if_pos rfl]
  · intro d hdx hne
    rw [verify_composite_eval hmacHex instantOf nowMs tsMs body secret t d
      htne ht hdx hinst]
    rw [if_neg (not_lt.mpr hskew), if_neg (fun he => hne he.symm)]

/-- C7 witness: the round trip and a flipped digest at a concrete
environment (constant HMAC digest "ab", timestamp "1" parsing to instant
0 ms, now 0 ms, empty body and secret); the flipped signature "00" decodes
to different bytes and is rejected. -/
theorem verify_roundtrip_and_flip_witness :
    verifyMarbleSignature (fun _ _ => ['a', 'b']) (fun _ => some 0) 0 []
        ⟨some (('t' :: '=' :: ['1']) ++ ',' :: 'v' :: '1' :: '=' :: ['a', 'b']),
          none⟩ [] ⟨none, none⟩ = .ok () ∧
    verifyMarbleSignature (fun _ _ => ['a', 'b']) (fun _ => some 0) 0 []
        ⟨some (('t' :: '=' :: ['1']) ++ ',' :: 'v' :: '1' :: '=' :: ['0', '0']),
          none⟩ [] ⟨none, none⟩ = .error .invalidSignature := by
  have h := verify_roundtrip_and_flip (fun _ _ => ['a', 'b']) (fun _ => some 0)
    0 0 [] [] ['1'] (by decide) (by decide) (by decide) rfl (by decide)
  exact ⟨h.1, h.2 ['0', '0'] (by decide) (by decide)⟩

/-- C8: with the default 300 s tolerance and a digit timestamp t parsing to
instant tsMs, verification fails with the timestamp-out-of-range error
when the absolute skew is 301 s, and succeeds (all else valid) when the
absolute skew is 299 s. -/
theorem verify_tolerance_boundary (hmacHex : Str → Str → Str)
    (instantOf : Str → Option ℤ) (nowA nowB tsMs : ℤ) (body secret t : Str)
    (htne : t ≠ []) (ht : ∀ c ∈ t, isDigitChar c = true)
    (hdig : ∀ c ∈ hmacHex secret (t ++ '.' :: body), isHexChar c = true)
    (hinst : instantOf t = some tsMs)
    (hA : |nowA - tsMs| = 301 * 1000) (hB : |nowB - tsMs| = 299 * 1000) :
    verifyMarbleSignature hmacHex instantOf nowA body
        ⟨some (('t' :: '=' :: t) ++ ',' :: 'v' :: '1' :: '=' ::
          hmacHex secret (t ++ '.' :: body)), none⟩ secret ⟨none, none⟩ =
      .error .timestampOutOfRange ∧
    verifyMarbleSignature hmacHex instantOf nowB body
        ⟨some (('t' :: '=' :: t) ++ ',' :: 'v' :: '1' :: '=' ::
          hmacHex secret (t ++ '.' :: body)), none⟩ secret ⟨none, none⟩ =
      .ok () := by
  constructor
  · rw [verify_composite_eval hmacHex instantOf nowA tsMs body secret t _
      htne ht hdig hinst]
    rw [if_pos (by rw [hA]; norm_num)]
  · rw [verify_composite_eval hmacHex instantOf nowB tsMs body secret t _
      htne ht hdig hinst]
    rw [if_neg (by rw [hB]; norm_num), if_pos rfl]

/-- C8 witness: the boundary at concrete values: timestamp instant 0 ms,
now 301000 ms rejected, now 299000 ms accepted. -/
theorem verify_tolerance_boundary_witness :
    verifyMarbleSignature (fun _ _ => ['a', 'b']) (fun _ => some 0) 301000 []
        ⟨some (('t' :: '=' :: ['1']) ++ ',' :: 'v' :: '1' :: '=' :: ['a', 'b']),
          none⟩ [] ⟨none, none⟩ = .error .timestampOutOfRange ∧
    verifyMarbleSignature (fun _ _ => ['a', 'b']) (fun _ => some 0) 299000 []
        ⟨some (('t' :: '=' :: ['1']) ++ ',' :: 'v' :: '1' :: '=' :: ['a', 'b']),
          none⟩ [] ⟨none, none⟩ = .ok () :=
  verify_tolerance_boundary (fun _ _ => ['a', 'b']) (fun _ => some 0)
    301000 299000 0 [] [] ['1'] (by decide) (by decide) (by decide) rfl
    (by decide) (by decide)

/-- C10: with toleranceSeconds = 0 no timestamp validation occurs at all:
the conclusion holds for every timestamp-to-instant interpretation
(including one on which the timestamp fails to parse) and every clock;
the timestamp from the x-marble-timestamp header is still prefixed into
the signed payload, and the outcome is decided purely by the signature
comparison: the correct digest over (t).(body) is accepted and any hex
signature decoding to different bytes is rejected as invalid. -/
theorem verify_tolerance_zero_skips_timestamp (hmacHex : Str → Str → Str)
    (instantOf : Str → Option ℤ) (nowMs : ℤ) (body secret t : Str)
    (htne : t ≠ [])
    (hdig : ∀ c ∈ hmacHex secret (t ++ '.' :: body), isHexChar c = true)
    (hdne : hmacHex secret (t ++ '.' :: body) ≠ []) :
    verifyMarbleSignature hmacHex instantOf nowMs body
        ⟨some (hmacHex secret (t ++ '.' :: body)), some t⟩ secret
        ⟨none, some 0⟩ = .ok () ∧
    ∀ d : Str, d ≠ [] → (∀ c ∈ d, isHexChar c = true) →
      hexDecode d ≠ hexDecode (hmacHex secret (t ++ '.' :: body)) →
      verifyMarbleSignature hmacHex instantOf nowMs body ⟨some d, some t⟩
          secret ⟨none, some 0⟩ =
        .error .invalidSignature := by
  constructor
  · rw [verify_bare_tol0_eval hmacHex instantOf nowMs body secret t _
      htne hdne hdig]
    rw [if_pos rfl]
  · intro d hdne2 hdx hne
    rw [verify_bare_tol0_eval hmacHex instantOf nowMs body secret t d
      htne hdne2 hdx]
    rw [if_neg (fun he => hne he.symm)]

/-- C10 witness: a timestamp "x" whose instant interpretation is none
(it parses to no valid instant), tolerance zero: verification still
succeeds with the correct digest and rejects a different one. -/
theorem verify_tolerance_zero_skips_timestamp_witness :
    verifyMarbleSignature (fun _ _ => ['a', 'b']) (fun _ => none) 0 []
        ⟨some ['a', 'b'], some ['x']⟩ [] ⟨none, some 0⟩ = .ok () ∧
    verifyMarbleSignature (fun _ _ => ['a', 'b']) (fun _ => none) 0 []
        ⟨some ['0', '0'], some ['x']⟩ [] ⟨none, some 0⟩ =
      .error .invalidSignature := by
  have h := verify_tolerance_zero_skips_timestamp (fun _ _ => ['a', 'b'])
    (fun _ => none) 0 [] [] ['x'] (by decide) (by decide) (by decide)
  exact ⟨h.1, h.2 ['0', '0'] (by decide) (by decide) (by decide)⟩

end Marble
